import Mathlib

/-!
Shallow embedding of the Couchbase-to-MongoDB migration pipeline
(src/mig_mechoice.py, src/services/mongodb_service.py,
src/dal/mongodb_dal.py, src/dal/couchbase_dal.py).

JSON-like Python values are modelled by the inductive `JsonValue`;
Python dicts are association lists with the insertion-order and
update-in-place semantics of CPython dicts.  The MongoDB instance is a
map from collection name (an arbitrary value, as the code uses the raw
discriminator value as collection name) to the list of stored
documents.  Fallible external calls are modelled by explicit outcome
parameters: `queryOk` for the deduplication membership query and a
`Nat → Option _` attempt oracle for the paginated Couchbase read.
-/

namespace Soft

/-- A JSON-like Python value.  Numbers keep their source lexeme, which is
all the migration code ever inspects (it never does arithmetic). -/
inductive JsonValue : Type where
  | null : JsonValue
  | jbool : Bool → JsonValue
  | jnum : String → JsonValue
  | jstr : String → JsonValue
  | jarr : List JsonValue → JsonValue
  | jobj : List (String × JsonValue) → JsonValue

mutual

/-- Decidable equality on values (the deriving handler does not support
this nested inductive, so it is spelled out). -/
def decEqJson : (a b : JsonValue) → Decidable (a = b)
  | .null, .null => isTrue rfl
  | .jbool a, .jbool b =>
      match decEq a b with
      | isTrue h => isTrue (by rw [h])
      | isFalse h => isFalse (fun hh => h (by cases hh; rfl))
  | .jnum a, .jnum b =>
      match decEq a b with
      | isTrue h => isTrue (by rw [h])
      | isFalse h => isFalse (fun hh => h (by cases hh; rfl))
  | .jstr a, .jstr b =>
      match decEq a b with
      | isTrue h => isTrue (by rw [h])
      | isFalse h => isFalse (fun hh => h (by cases hh; rfl))
  | .jarr xs, .jarr ys =>
      match decEqJsonList xs ys with
      | isTrue h => isTrue (by rw [h])
      | isFalse h => isFalse (fun hh => h (by cases hh; rfl))
  | .jobj xs, .jobj ys =>
      match decEqJsonObj xs ys with
      | isTrue h => isTrue (by rw [h])
      | isFalse h => isFalse (fun hh => h (by cases hh; rfl))
  | .null, .jbool _ => isFalse (fun h => JsonValue.noConfusion h)
  | .null, .jnum _ => isFalse (fun h => JsonValue.noConfusion h)
  | .null, .jstr _ => isFalse (fun h => JsonValue.noConfusion h)
  | .null, .jarr _ => isFalse (fun h => JsonValue.noConfusion h)
  | .null, .jobj _ => isFalse (fun h => JsonValue.noConfusion h)
  | .jbool _, .null => isFalse (fun h => JsonValue.noConfusion h)
  | .jbool _, .jnum _ => isFalse (fun h => JsonValue.noConfusion h)
  | .jbool _, .jstr _ => isFalse (fun h => JsonValue.noConfusion h)
  | .jbool _, .jarr _ => isFalse (fun h => JsonValue.noConfusion h)
  | .jbool _, .jobj _ => isFalse (fun h => JsonValue.noConfusion h)
  | .jnum _, .null => isFalse (fun h => JsonValue.noConfusion h)
  | .jnum _, .jbool _ => isFalse (fun h => JsonValue.noConfusion h)
  | .jnum _, .jstr _ => isFalse (fun h => JsonValue.noConfusion h)
  | .jnum _, .jarr _ => isFalse (fun h => JsonValue.noConfusion h)
  | .jnum _, .jobj _ => isFalse (fun h => JsonValue.noConfusion h)
  | .jstr _, .null => isFalse (fun h => JsonValue.noConfusion h)
  | .jstr _, .jbool _ => isFalse (fun h => JsonValue.noConfusion h)
  | .jstr _, .jnum _ => isFalse (fun h => JsonValue.noConfusion h)
  | .jstr _, .jarr _ => isFalse (fun h => JsonValue.noConfusion h)
  | .jstr _, .jobj _ => isFalse (fun h => JsonValue.noConfusion h)
  | .jarr _, .null => isFalse (fun h => JsonValue.noConfusion h)
  | .jarr _, .jbool _ => isFalse (fun h => JsonValue.noConfusion h)
  | .jarr _, .jnum _ => isFalse (fun h => JsonValue.noConfusion h)
  | .jarr _, .jstr _ => isFalse (fun h => JsonValue.noConfusion h)
  | .jarr _, .jobj _ => isFalse (fun h => JsonValue.noConfusion h)
  | .jobj _, .null => isFalse (fun h => JsonValue.noConfusion h)
  | .jobj _, .jbool _ => isFalse (fun h => JsonValue.noConfusion h)
  | .jobj _, .jnum _ => isFalse (fun h => JsonValue.noConfusion h)
  | .jobj _, .jstr _ => isFalse (fun h => JsonValue.noConfusion h)
  | .jobj _, .jarr _ => isFalse (fun h => JsonValue.noConfusion h)

/-- Decidable equality on value lists. -/
def decEqJsonList : (xs ys : List JsonValue) → Decidable (xs = ys)
  | [], [] => isTrue rfl
  | [], _ :: _ => isFalse (fun h => List.noConfusion h)
  | _ :: _, [] => isFalse (fun h => List.noConfusion h)
  | x :: xs, y :: ys =>
      match decEqJson x y with
      | isFalse h => isFalse (fun hh => h (by cases hh; rfl))
      | isTrue h1 =>
        match decEqJsonList xs ys with
        | isTrue h2 => isTrue (by rw [h1, h2])
        | isFalse h => isFalse (fun hh => h (by cases hh; rfl))

/-- Decidable equality on key-value binding lists. -/
def decEqJsonObj : (xs ys : List (String × JsonValue)) → Decidable (xs = ys)
  | [], [] => isTrue rfl
  | [], _ :: _ => isFalse (fun h => List.noConfusion h)
  | _ :: _, [] => isFalse (fun h => List.noConfusion h)
  | (k1, v1) :: xs, (k2, v2) :: ys =>
      match decEq k1 k2 with
      | isFalse h => isFalse (fun hh => h (by cases hh; rfl))
      | isTrue hk =>
        match decEqJson v1 v2 with
        | isFalse h => isFalse (fun hh => h (by cases hh; rfl))
        | isTrue hv =>
          match decEqJsonObj xs ys with
          | isTrue ht => isTrue (by rw [hk, hv, ht])
          | isFalse h => isFalse (fun hh => h (by cases hh; rfl))

end

instance : DecidableEq JsonValue := decEqJson

/-- A Python dict with string keys, as used for records and documents. -/
abbrev JObj := List (String × JsonValue)

/-- Python `d.get(k)`: first binding of the key (dicts never hold
duplicate keys, so first = only). -/
def jGet : JObj → String → Option JsonValue
  | [], _ => none
  | (k', v') :: rest, k => if k' = k then some v' else jGet rest k

/-- Python `d[k] = v`: update in place if the key exists, else append
(CPython dicts keep the original position on update). -/
def jInsert : JObj → String → JsonValue → JObj
  | [], k, v => [(k, v)]
  | (k', v') :: rest, k, v =>
      if k' = k then (k, v) :: rest else (k', v') :: jInsert rest k v

/-- Python `d.pop(k, None)`: remove the key if present. -/
def jErase : JObj → String → JObj
  | [], _ => []
  | (k', v') :: rest, k => if k' = k then jErase rest k else (k', v') :: jErase rest k

/-- Whether the digits of a JSON number lexeme denote zero (used for
Python truthiness of numbers).  `NaN` and `Infinity` have no digits in
the mantissa and are treated as nonzero, as in Python. -/
def numIsZero (lex : String) : Bool :=
  let m := lex.toList.takeWhile (fun c => c ≠ 'e' ∧ c ≠ 'E')
  (m.filter Char.isDigit).all (fun c => c = '0') && m.any Char.isDigit

/-- Python truthiness of a JSON-like value (`if not x`). -/
def truthy : JsonValue → Bool
  | .null => false
  | .jbool b => b
  | .jnum lex => ! numIsZero lex
  | .jstr s => s ≠ ""
  | .jarr xs => ! xs.isEmpty
  | .jobj f => ! f.isEmpty

/-- JSON whitespace accepted between tokens by `json.loads`. -/
def jsonWs (c : Char) : Bool := c = ' ' || c = '\t' || c = '\n' || c = '\r'

/-- Drop leading JSON whitespace. -/
def skipWs : List Char → List Char
  | [] => []
  | c :: cs => if jsonWs c then skipWs cs else c :: cs

/-- Match a literal character sequence, returning the rest on success. -/
def dropPre : List Char → List Char → Option (List Char)
  | [], cs => some cs
  | _ :: _, [] => none
  | l :: ls, c :: cs => if c = l then dropPre ls cs else none

/-- Value of a hex digit, if any. -/
def hexVal (c : Char) : Option Nat :=
  if '0' ≤ c ∧ c ≤ '9' then some (c.toNat - '0'.toNat)
  else if 'a' ≤ c ∧ c ≤ 'f' then some (c.toNat - 'a'.toNat + 10)
  else if 'A' ≤ c ∧ c ≤ 'F' then some (c.toNat - 'A'.toNat + 10)
  else none

/-- Parse the body of a JSON string literal (the opening quote already
consumed), handling the escape sequences `json.loads` accepts and
rejecting raw control characters as the strict decoder does. -/
def parseStrAux : List Char → List Char → Option (String × List Char)
  | _, [] => none
  | acc, '"' :: cs => some (String.mk acc.reverse, cs)
  | acc, '\\' :: 'u' :: h1 :: h2 :: h3 :: h4 :: cs =>
      (match hexVal h1, hexVal h2, hexVal h3, hexVal h4 with
       | some a, some b, some c, some d =>
           parseStrAux (Char.ofNat (((a * 16 + b) * 16 + c) * 16 + d) :: acc) cs
       | _, _, _, _ => none)
  | _, '\\' :: 'u' :: _ => none
  | acc, '\\' :: e :: cs =>
      if e = '"' then parseStrAux ('"' :: acc) cs
      else if e = '\\' then parseStrAux ('\\' :: acc) cs
      else if e = '/' then parseStrAux ('/' :: acc) cs
      else if e = 'b' then parseStrAux ('\x08' :: acc) cs
      else if e = 'f' then parseStrAux ('\x0c' :: acc) cs
      else if e = 'n' then parseStrAux ('\n' :: acc) cs
      else if e = 'r' then parseStrAux ('\r' :: acc) cs
      else if e = 't' then parseStrAux ('\t' :: acc) cs
      else none
  | _, ['\\'] => none
  | acc, c :: cs => if c.toNat < 0x20 then none else parseStrAux (c :: acc) cs

/-- Parse a JSON number lexeme per the JSON grammar: leading zeros are
rejected, which is what makes values such as `00012` unparsable. -/
def parseNum (cs : List Char) : Option (String × List Char) :=
  let signAndRest : List Char × List Char :=
    match cs with
    | '-' :: r => (['-'], r)
    | _ => ([], cs)
  let sign := signAndRest.1
  let cs1 := signAndRest.2
  match cs1 with
  | [] => none
  | c :: rest =>
    let intAndRest : Option (List Char × List Char) :=
      if c = '0' then some (['0'], rest)
      else if c.isDigit then
        let ds := (c :: rest).takeWhile Char.isDigit
        some (ds, (c :: rest).drop ds.length)
      else none
    match intAndRest with
    | none => none
    | some (intPart, afterInt) =>
      let fracAndRest : Option (List Char × List Char) :=
        match afterInt with
        | '.' :: r =>
            let fs := r.takeWhile Char.isDigit
            if fs = [] then none else some ('.' :: fs, r.drop fs.length)
        | _ => some ([], afterInt)
      match fracAndRest with
      | none => none
      | some (fracPart, afterFrac) =>
        let expAndRest : Option (List Char × List Char) :=
          match afterFrac with
          | e :: r =>
            if e = 'e' ∨ e = 'E' then
              let signedR : List Char × List Char :=
                match r with
                | s :: r2 => if s = '+' ∨ s = '-' then ([s], r2) else ([], r)
                | [] => ([], r)
              let es := signedR.2.takeWhile Char.isDigit
              if es = [] then none
              else some (e :: signedR.1 ++ es, signedR.2.drop es.length)
            else some ([], afterFrac)
          | [] => some ([], afterFrac)
        match expAndRest with
        | none => none
        | some (expPart, afterExp) =>
            some (String.mk (sign ++ intPart ++ fracPart ++ expPart), afterExp)

/-- The pending work of the recursive-descent JSON parser: a value, the
members of an object, or the elements of an array. -/
inductive PTask : Type where
  | val : List Char → PTask
  | members : List Char → JObj → PTask
  | elems : List Char → List JsonValue → PTask

/-- Recursive-descent JSON parser with explicit fuel, mirroring
`json.loads` (including the `NaN` and `Infinity` constants the Python
decoder accepts by default).  Duplicate object keys follow Python
semantics: the last occurrence wins, at the first position.  A single
fuel-indexed function so that it evaluates by kernel reduction. -/
def parseStep : Nat → PTask → Option (JsonValue × List Char)
  | 0, _ => none
  | fuel + 1, .val cs0 =>
    (match skipWs cs0 with
     | [] => none
     | '"' :: rest =>
        (match parseStrAux [] rest with
         | some (s, r) => some (.jstr s, r)
         | none => none)
     | '{' :: rest =>
        (match skipWs rest with
         | '}' :: r2 => some (.jobj [], r2)
         | r1 => parseStep fuel (.members r1 []))
     | '[' :: rest =>
        (match skipWs rest with
         | ']' :: r2 => some (.jarr [], r2)
         | r1 => parseStep fuel (.elems r1 []))
     | cs =>
        match dropPre "true".toList cs with
        | some r => some (.jbool true, r)
        | none =>
          match dropPre "false".toList cs with
          | some r => some (.jbool false, r)
          | none =>
            match dropPre "null".toList cs with
            | some r => some (.null, r)
            | none =>
              match dropPre "NaN".toList cs with
              | some r => some (.jnum "NaN", r)
              | none =>
                match dropPre "Infinity".toList cs with
                | some r => some (.jnum "Infinity", r)
                | none =>
                  match dropPre "-Infinity".toList cs with
                  | some r => some (.jnum "-Infinity", r)
                  | none =>
                    match parseNum cs with
                    | some (lex, r) => some (.jnum lex, r)
                    | none => none)
  | fuel + 1, .members cs acc =>
    (match cs with
     | '"' :: rest =>
       (match parseStrAux [] rest with
        | some (k, r1) =>
          (match skipWs r1 with
           | ':' :: r2 =>
             (match parseStep fuel (.val r2) with
              | some (v, r3) =>
                (match skipWs r3 with
                 | ',' :: r4 => parseStep fuel (.members (skipWs r4) (jInsert acc k v))
                 | '}' :: r4 => some (.jobj (jInsert acc k v), r4)
                 | _ => none)
              | none => none)
           | _ => none)
        | none => none)
     | _ => none)
  | fuel + 1, .elems cs acc =>
    (match parseStep fuel (.val cs) with
     | some (v, r1) =>
       (match skipWs r1 with
        | ',' :: r2 => parseStep fuel (.elems r2 (acc ++ [v]))
        | ']' :: r2 => some (.jarr (acc ++ [v]), r2)
        | _ => none)
     | none => none)

/-- Python `json.loads`: parse a complete document, rejecting trailing
garbage ("Extra data"). -/
def json_loads (s : String) : Option JsonValue :=
  match parseStep (2 * s.toList.length + 4) (.val s.toList) with
  | some (v, rest) => if skipWs rest = [] then some v else none
  | none => none

/-- Whitespace removed by Python `str.strip` and matched by the regex
class `\s` (ASCII range). -/
def pyWs (c : Char) : Bool :=
  c = ' ' || c = '\t' || c = '\n' || c = '\r' || c = '\x0b' || c = '\x0c'

/-- First character of a string, if any (Python `s.startswith` for a
one-character pattern). -/
def firstChar (s : String) : Option Char :=
  match s.toList with
  | c :: _ => some c
  | [] => none

/-- Python `s.strip()`. -/
def pyStrip (s : String) : String :=
  String.mk (((s.toList.dropWhile pyWs).reverse.dropWhile pyWs).reverse)

/-- One left-to-right pass of `re.sub` with pattern colon, whitespace
run, then a digit run starting with at least two zeros; the digit run is
wrapped in double quotes.  Matches are non-overlapping and scanning
resumes after the replaced region, as in `re.sub`. -/
def normSubAux : Nat → List Char → List Char
  | 0, cs => cs
  | _ + 1, [] => []
  | fuel + 1, c :: cs =>
    if c = ':' then
      let ws := cs.takeWhile pyWs
      if ws = [] then c :: normSubAux fuel cs
      else
        let afterWs := cs.drop ws.length
        let digits := afterWs.takeWhile Char.isDigit
        if digits.take 2 = ['0', '0'] then
          ':' :: ws ++ '"' :: digits ++ '"' :: normSubAux fuel (afterWs.drop digits.length)
        else c :: normSubAux fuel cs
    else c :: normSubAux fuel cs

/-- `MongoDBService._normalize_json_string`: strip, quote invalid
leading-zero numbers, and wrap in braces when the result does not start
with one. -/
def _normalize_json_string (s : String) : String :=
  let n1 := pyStrip s
  let n2 := String.mk (normSubAux (n1.toList.length + 1) n1.toList)
  let n3 := pyStrip n2
  if firstChar n3 = some '\x7b' then n3 else "\x7b" ++ n3 ++ "\x7d"

/-- `MongoDBService._convert_doc_value`: a dict passes through, a string
gets a direct parse and then, only if the direct parse raised, a parse
of the normalized string; anything that does not end in a dict becomes
`none` (the record will be skipped). -/
def _convert_doc_value (v : JsonValue) : Option JsonValue :=
  match v with
  | .jobj f => some (.jobj f)
  | .jstr s =>
    (match json_loads s with
     | some p => (match p with | .jobj f => some (.jobj f) | _ => none)
     | none =>
       match json_loads (_normalize_json_string s) with
       | some p => (match p with | .jobj f => some (.jobj f) | _ => none)
       | none => none)
  | _ => none

/-! ## MongoDB store and DAL (src/dal/mongodb_dal.py) -/

/-- The MongoDB instance: collections keyed by the value the code uses
as collection name (the restructuring strategies use the raw
discriminator value), each holding its documents in insertion order. -/
abbrev MongoDB := List (JsonValue × List JObj)

/-- The documents of a collection (absent collections are empty). -/
def dbColl : MongoDB → JsonValue → List JObj
  | [], _ => []
  | (c, ds) :: rest, k => if c = k then ds else dbColl rest k

/-- Replace the contents of a collection. -/
def dbSet : MongoDB → JsonValue → List JObj → MongoDB
  | [], k, v => [(k, v)]
  | (c, ds) :: rest, k, v => if c = k then (k, v) :: rest else (c, ds) :: dbSet rest k v

/-- Append one document to a collection. -/
def dbPush (db : MongoDB) (c : JsonValue) (d : JObj) : MongoDB :=
  dbSet db c (dbColl db c ++ [d])

/-- The `_id` values present in a list of stored documents (documents
inserted without `_id` get a server-generated ObjectId, which no query
in this code ever matches, so they are simply absent here). -/
def collIds (ds : List JObj) : List JsonValue := ds.filterMap (fun d => jGet d "_id")

/-- Total number of stored documents, across all collections. -/
def totalDocs (db : MongoDB) : Nat := (db.map (fun p => p.2.length)).sum

/-- `insert_one`: a duplicate `_id` raises a `PyMongoError`, which the
caller logs and swallows, so the store is unchanged; otherwise the
document is appended. -/
def dal_insert_one (db : MongoDB) (c : JsonValue) (d : JObj) : MongoDB :=
  match jGet d "_id" with
  | some x => if x ∈ collIds (dbColl db c) then db else dbPush db c d
  | none => dbPush db c d

/-- Unordered `insert_many`: every document is attempted in order; a
duplicate `_id` gives a write error carrying the document's index while
the rest keep inserting.  Returns the new store and the failed indices. -/
def dal_insert_many_go (c : JsonValue) : List JObj → Nat → MongoDB → MongoDB × List Nat
  | [], _, db => (db, [])
  | d :: ds, i, db =>
    match jGet d "_id" with
    | some x =>
      if x ∈ collIds (dbColl db c) then
        let r := dal_insert_many_go c ds (i + 1) db
        (r.1, i :: r.2)
      else dal_insert_many_go c ds (i + 1) (dbPush db c d)
    | none => dal_insert_many_go c ds (i + 1) (dbPush db c d)

/-- The single-document retry of the bulk-write error handler: the
document at a failed index is copied, its `_id` popped, and inserted
individually (an individual failure is logged and skipped). -/
def retryStep (c : JsonValue) (docs : List JObj) (acc : MongoDB) (i : Nat) : MongoDB :=
  match docs.get? i with
  | some d => dal_insert_one acc c (jErase d "_id")
  | none => acc

/-- `MongoDBDataAccess.add_documents`: each attempt bulk-inserts the
whole list; on a `BulkWriteError` the documents at the failed indices
are re-inserted individually with `_id` popped, and — because the
handler never returns — the loop falls through to the next attempt with
the full original list. -/
def dal_add_documents (c : JsonValue) (docs : List JObj) : Nat → MongoDB → MongoDB
  | 0, db => db
  | n + 1, db =>
    let r := dal_insert_many_go c docs 0 db
    if r.2 = [] then r.1
    else dal_add_documents c docs n (r.2.foldl (retryStep c docs) r.1)

/-! ## MongoDB service (src/services/mongodb_service.py) -/

/-- Split a list into chunks of `n` (the `range(0, len, n)` batching
loop); the fuel equals the list length, which suffices for `0 < n`. -/
def chunkGo {α : Type} : Nat → Nat → List α → List (List α)
  | _, _, [] => []
  | 0, _, xs => [xs]
  | fuel + 1, n, xs => xs.take n :: chunkGo fuel n (xs.drop n)

/-- The service insert loop: chunks of `batch_size`, each written with
`add_documents(collection, batch, max_retries=5, retry_delay=3)`. -/
def insert_in_batches (c : JsonValue) (docs : List JObj) (batchSize : Nat) (db : MongoDB) :
    MongoDB :=
  (chunkGo docs.length batchSize docs).foldl (fun acc b => dal_add_documents c b 5 acc) db

/-- `MongoDBService._check_duplicates_batch`: empty input returns the
empty set without a query; a failing membership query is caught and
also yields the empty set; otherwise the `_id` values already present
in the collection are returned. -/
def _check_duplicates_batch (db : MongoDB) (c : JsonValue) (ids : List JsonValue)
    (queryOk : Bool) : List JsonValue :=
  if ids = [] then []
  else if queryOk then ids.filter (fun i => decide (i ∈ collIds (dbColl db c)))
  else []

/-- The prologue shared verbatim by the three strategy loops: require a
dict record with a truthy `id`, a nested value under the bucket name
that is not `None`, and a nested value convertible to a dict.  Returns
the record id and the converted nested dict. -/
def recordPrep (bucket : String) (doc : JsonValue) : Option (JsonValue × JObj) :=
  match doc with
  | .jobj o =>
    (match jGet o "id" with
     | some i =>
       if truthy i then
         match jGet o bucket with
         | some v =>
           if v = .null then none
           else
             match _convert_doc_value v with
             | some (.jobj dv) => some (i, dv)
             | _ => none
         | none => none
       else none
     | none => none)
  | _ => none

/-- Build the final document: copy the nested dict, set `_id` to the
record id and tag it with the bucket name. -/
def mkFinalDoc (dv : JObj) (i : JsonValue) (bucket : String) : JObj :=
  jInsert (jInsert dv "_id" i) "bucket_name" (.jstr bucket)

/-- The per-record transformation of the keep-structure strategy. -/
def transformKeep (bucket : String) (doc : JsonValue) : Option JObj :=
  (recordPrep bucket doc).map (fun p => mkFinalDoc p.2 p.1 bucket)

/-- The per-record transformation of the restructure strategy: the
destination is the `_type` value; a record whose `_type` is absent or
falsy is skipped. -/
def transformRestructure (bucket : String) (doc : JsonValue) : Option (JsonValue × JObj) :=
  match recordPrep bucket doc with
  | some (i, dv) =>
    (match jGet dv "_type" with
     | some t => if truthy t then some (t, mkFinalDoc dv i bucket) else none
     | none => none)
  | none => none

/-- Python `x is not None` on the result of `dict.get`. -/
def isNotNone : Option JsonValue → Bool
  | none => false
  | some .null => false
  | some _ => true

/-- Fallback destination probing of the missing-type strategy. -/
def missingTypeFallback (dv : JObj) : JsonValue :=
  if isNotNone (jGet dv "count") then .jstr "Count"
  else if isNotNone (jGet dv "counter") then .jstr "Counter"
  else .jstr "mechoice_metadata"

/-- Destination selection of the missing-type strategy: a truthy
`_type` wins, otherwise the fallback probes run. -/
def missingTypeDest (dv : JObj) : JsonValue :=
  match jGet dv "_type" with
  | some t => if truthy t then t else missingTypeFallback dv
  | none => missingTypeFallback dv

/-- The per-record transformation of the missing-type strategy. -/
def transformMissingType (bucket : String) (doc : JsonValue) : Option (JsonValue × JObj) :=
  (recordPrep bucket doc).map (fun p => (missingTypeDest p.2, mkFinalDoc p.2 p.1 bucket))

/-- Append a document to its destination group (groups keep first-seen
order, as Python dicts do). -/
def groupAdd (gs : List (JsonValue × List JObj)) (k : JsonValue) (d : JObj) :
    List (JsonValue × List JObj) :=
  match gs with
  | [] => [(k, [d])]
  | (k', ds) :: rest => if k' = k then (k, ds ++ [d]) :: rest else (k', ds) :: groupAdd rest k d

/-- Group the transformed records of a page by destination. -/
def groupsOf (f : JsonValue → Option (JsonValue × JObj)) (data : List JsonValue) :
    List (JsonValue × List JObj) :=
  data.foldl
    (fun gs doc =>
      match f doc with
      | some (k, d) => groupAdd gs k d
      | none => gs)
    []

/-- Dedup-then-insert for one destination group: batch duplicate check,
filter already-present `_id` values, and bulk-insert the rest in
batches (nothing is written when all are duplicates). -/
def writeGroup (db : MongoDB) (c : JsonValue) (docs : List JObj) (queryOk : Bool)
    (batchSize : Nat) : MongoDB :=
  let ids := docs.filterMap (fun d => jGet d "_id")
  let existing := _check_duplicates_batch db c ids queryOk
  let unique := docs.filter (fun d => ! decide ((jGet d "_id").getD .null ∈ existing))
  if unique = [] then db else insert_in_batches c unique batchSize db

/-- `MongoDBService.process_mechoice_keep_structure`. -/
def process_mechoice_keep_structure (bucket : String) (data : List JsonValue)
    (queryOk : Bool) (batchSize : Nat) (db : MongoDB) : MongoDB :=
  let processed := data.filterMap (transformKeep bucket)
  if processed = [] then db
  else writeGroup db (.jstr bucket) processed queryOk batchSize

/-- `MongoDBService.process_mechoice_restructure`. -/
def process_mechoice_restructure (bucket : String) (data : List JsonValue)
    (queryOk : Bool) (batchSize : Nat) (db : MongoDB) : MongoDB :=
  let gs := groupsOf (transformRestructure bucket) data
  if gs = [] then db
  else gs.foldl (fun acc g => writeGroup acc g.1 g.2 queryOk batchSize) db

/-- `MongoDBService.process_mechoice_missing_type`. -/
def process_mechoice_missing_type (bucket : String) (data : List JsonValue)
    (queryOk : Bool) (batchSize : Nat) (db : MongoDB) : MongoDB :=
  let gs := groupsOf (transformMissingType bucket) data
  if gs = [] then db
  else gs.foldl (fun acc g => writeGroup acc g.1 g.2 queryOk batchSize) db

/-! ## Paginated Couchbase read (src/dal/couchbase_dal.py) -/

/-- The retry loop of `CouchbaseDataAccess.get_data_paginated`, over an
attempt oracle `q` (`q a = none` means attempt `a` raised).  `fuel` is
the number of attempts still allowed; on the last allowed attempt a
failure returns the empty-list page-failed signal.  The second
component counts the attempts actually made. -/
def gdpGo (q : Nat → Option (List JsonValue)) : Nat → Nat → List JsonValue × Nat
  | a, 0 => ([], a)
  | a, fuel + 1 =>
    match q a with
    | some r => (r, a + 1)
    | none => if fuel = 0 then ([], a + 1) else gdpGo q (a + 1) fuel

/-- `get_data_paginated` with `max_retries = m`: run the retry loop
from attempt 0; with `m = 0` the loop body never runs and the trailing
`return []` is reached with no attempt made. -/
def get_data_paginated (m : Nat) (q : Nat → Option (List JsonValue)) :
    List JsonValue × Nat :=
  if m = 0 then ([], 0) else gdpGo q 0 m

/-! ## Page worker and coordinator (src/mig_mechoice.py) -/

/-- `process_page_mechoice`, taking the already-fetched page data (the
service read returns `None` for an empty or failed page, which the
worker folds into the empty list).  Returns the new store and the
`(page, success_count)` pair; `success_count` is set to
`len(page_data)` after the service call. -/
def process_page_mechoice (bucket migType : String) (page : Nat)
    (pageData : List JsonValue) (queryOk : Bool) (batchSize : Nat) (db : MongoDB) :
    MongoDB × Nat × Nat :=
  if pageData.isEmpty then (db, page, 0)
  else if migType = "keep_structure" then
    (process_mechoice_keep_structure bucket pageData queryOk batchSize db, page,
      pageData.length)
  else if migType = "restructure" then
    (process_mechoice_restructure bucket pageData queryOk batchSize db, page,
      pageData.length)
  else if migType = "missing_type" then
    (process_mechoice_missing_type bucket pageData queryOk batchSize db, page,
      pageData.length)
  else (db, page, 0)

/-- The `(page, success_count)` component of the page worker, which
never depends on the store. -/
def pageCount (migType : String) (d : List JsonValue) : Nat :=
  if d.isEmpty then 0
  else if migType = "keep_structure" ∨ migType = "restructure" ∨ migType = "missing_type"
    then d.length
  else 0

/-- One result-collection step of the coordinator: run the page worker,
accumulate `total_processed`, and record a zero-count page as failed. -/
def migStep (bucket migType : String) (queryOk : Bool) (batchSize : Nat)
    (readPage : Nat → List JsonValue) (acc : MongoDB × Nat × List Nat) (p : Nat) :
    MongoDB × Nat × List Nat :=
  let r := process_page_mechoice bucket migType p (readPage p) queryOk batchSize acc.1
  (r.1, acc.2.1 + r.2.2, if r.2.2 = 0 then acc.2.2 ++ [r.2.1] else acc.2.2)

/-- `migrate_bucket_mechoice`: one page when the count is zero, else
the ceiling page count; every page is submitted, `total_processed`
accumulates the per-page counts and a zero-count page index is recorded
as failed.  Workers are modelled as completing in page order (the claim
set constrains membership of the failed list, not completion order). -/
def migrate_bucket_mechoice (bucket migType : String) (totalCount pageSize : Nat)
    (readPage : Nat → List JsonValue) (queryOk : Bool) (batchSize : Nat) (db : MongoDB) :
    MongoDB × Nat × List Nat :=
  let totalPages := if 0 < totalCount then (totalCount + pageSize - 1) / pageSize else 1
  (List.range totalPages).foldl (migStep bucket migType queryOk batchSize readPage) (db, 0, [])

/-! ## Concrete inputs used by the claim theorems -/

/-- The record of the keep-structure concrete scenario: id `o1`, nested
value the invalid-JSON string with a leading-zero number. -/
def c2rec : JsonValue :=
  .jobj [("id", .jstr "o1"), ("orders", .jstr "\x7b\"amount\": 00012\x7d")]

/-- A store whose collection `c` already holds a document with id `a`. -/
def c3db : MongoDB := [(.jstr "c", [[("_id", .jstr "a")]])]

/-- A one-document chunk whose bulk insert fails on index 0. -/
def c3docs : List JObj := [[("_id", .jstr "a"), ("x", .jstr "v")]]

/-- A chunk where the bulk insert fails on index 0 and succeeds on
index 1. -/
def c4docs : List JObj := [[("_id", .jstr "a"), ("x", .jstr "v")], [("_id", .jstr "b")]]

/-- A record whose `_type` is present but falsy (empty string) and that
also carries a `count` field. -/
def c7rec : JsonValue :=
  .jobj [("id", .jstr "m1"),
    ("mechoice_view", .jobj [("_type", .jstr ""), ("count", .jnum "1")])]

/-- A well-formed record for witness runs. -/
def wrec : JsonValue := .jobj [("id", .jstr "r1"), ("b", .jobj [("f", .jnum "7")])]

/-- A well-formed record of the coordinator scenario's source. -/
def c6rec : JsonValue := .jobj [("id", .jstr "r"), ("orders", .jobj [("amount", .jnum "5")])]

/-- The read outcomes of the coordinator scenario: pages 0 and 1 return
1000 records, page 2's query raises on all 3 attempts, so its read
returns the page-failed empty list. -/
def c6read (p : Nat) : List JsonValue :=
  if p < 2 then List.replicate 1000 c6rec else (get_data_paginated 3 (fun _ => none)).1

/-! ## Association-list and store lemmas -/

lemma jGet_jInsert_self (o : JObj) (k : String) (v : JsonValue) :
    jGet (jInsert o k v) k = some v := by
  induction o with
  | nil => simp [jInsert, jGet]
  | cons h t ih =>
    obtain ⟨k', v'⟩ := h
    by_cases hk : k' = k
    · subst hk; simp [jInsert, jGet]
    · simp [jInsert, jGet, hk, ih]

lemma jGet_jInsert_ne (o : JObj) (k k' : String) (v : JsonValue) (h : k' ≠ k) :
    jGet (jInsert o k' v) k = jGet o k := by
  induction o with
  | nil => simp [jInsert, jGet, h]
  | cons hd t ih =>
    obtain ⟨k0, v0⟩ := hd
    by_cases h0 : k0 = k'
    · subst h0; simp [jInsert, jGet, h]
    · by_cases h1 : k0 = k
      · subst h1; simp [jInsert, jGet, h0]
      · simp [jInsert, jGet, h0, h1, ih]

lemma jGet_jErase_self (o : JObj) (k : String) : jGet (jErase o k) k = none := by
  induction o with
  | nil => simp [jErase, jGet]
  | cons hd t ih =>
    obtain ⟨k0, v0⟩ := hd
    by_cases h0 : k0 = k
    · subst h0; simp [jErase, ih]
    · simp [jErase, jGet, h0, ih]

lemma dbColl_dbSet_self (db : MongoDB) (c : JsonValue) (v : List JObj) :
    dbColl (dbSet db c v) c = v := by
  induction db with
  | nil => simp [dbSet, dbColl]
  | cons hd t ih =>
    obtain ⟨c0, ds0⟩ := hd
    by_cases h0 : c0 = c
    · subst h0; simp [dbSet, dbColl]
    · simp [dbSet, dbColl, h0, ih]

lemma dbColl_dbSet_ne (db : MongoDB) (c c' : JsonValue) (v : List JObj) (h : c' ≠ c) :
    dbColl (dbSet db c' v) c = dbColl db c := by
  induction db with
  | nil => simp [dbSet, dbColl, h]
  | cons hd t ih =>
    obtain ⟨c0, ds0⟩ := hd
    by_cases h0 : c0 = c'
    · subst h0; simp [dbSet, dbColl, h]
    · by_cases h1 : c0 = c
      · subst h1; simp [dbSet, dbColl, h0]
      · simp [dbSet, dbColl, h0, h1, ih]

lemma dbColl_dbPush_self (db : MongoDB) (c : JsonValue) (d : JObj) :
    dbColl (dbPush db c d) c = dbColl db c ++ [d] := by
  simp [dbPush, dbColl_dbSet_self]

lemma mem_dbColl_dbPush (db : MongoDB) (c c' : JsonValue) (d d0 : JObj)
    (h : d ∈ dbColl db c) : d ∈ dbColl (dbPush db c' d0) c := by
  by_cases hc : c' = c
  · subst hc; rw [dbColl_dbPush_self]; exact List.mem_append_left _ h
  · rw [dbPush, dbColl_dbSet_ne _ _ _ _ hc]; exact h

lemma mem_collIds_of_mem {ds : List JObj} {d : JObj} {x : JsonValue}
    (hd : d ∈ ds) (hx : jGet d "_id" = some x) : x ∈ collIds ds := by
  exact List.mem_filterMap.mpr ⟨d, hd, hx⟩

/-! ## Retry-loop characterization (PageReader, claim C5) -/

lemma gdpGo_all_fail (q : Nat → Option (List JsonValue)) :
    ∀ fuel a, 0 < fuel → (∀ i, a ≤ i → i < a + fuel → q i = none) →
      gdpGo q a fuel = ([], a + fuel) := by
  intro fuel
  induction fuel with
  | zero => intro a h; omega
  | succ f ih =>
    intro a _ hfail
    have hqa : q a = none := hfail a (le_refl a) (by omega)
    by_cases hf : f = 0
    · subst hf; simp [gdpGo, hqa]
    · have h1 : gdpGo q (a + 1) f = ([], a + 1 + f) := by
        refine ih (a + 1) (by omega) ?_
        intro i h1 h2
        exact hfail i (by omega) (by omega)
      have h2 : a + 1 + f = a + (f + 1) := by omega
      simp [gdpGo, hqa, hf, h1, h2]

lemma gdpGo_success (q : Nat → Option (List JsonValue)) :
    ∀ j fuel a r, j < fuel → (∀ i, a ≤ i → i < a + j → q i = none) →
      q (a + j) = some r → gdpGo q a fuel = (r, a + j + 1) := by
  intro j
  induction j with
  | zero =>
    intro fuel a r hlt _ hq
    obtain ⟨f, rfl⟩ : ∃ f, fuel = f + 1 := ⟨fuel - 1, by omega⟩
    simp at hq
    simp [gdpGo, hq]
  | succ j ih =>
    intro fuel a r hlt hfail hq
    obtain ⟨f, rfl⟩ : ∃ f, fuel = f + 1 := ⟨fuel - 1, by omega⟩
    have hqa : q a = none := hfail a (le_refl a) (by omega)
    have hf : f ≠ 0 := by omega
    have hrec : gdpGo q (a + 1) f = (r, a + 1 + j + 1) := by
      refine ih f (a + 1) r (by omega) ?_ ?_
      · intro i h1 h2
        exact hfail i (by omega) (by omega)
      · have : a + 1 + j = a + (j + 1) := by omega
        rw [this]; exact hq
    have h2 : a + 1 + j + 1 = a + (j + 1) + 1 := by omega
    simp [gdpGo, hqa, hf, hrec, h2]

/-- C5: with maxRetries ≥ 1, the page read returns the first successful
query result after k < maxRetries deterministic failures; if every
attempt fails it returns the empty-list page-failed signal exactly
once, after exactly maxRetries attempts, and (being a total function)
without raising. -/
theorem spec_c5 (m : Nat) (q : Nat → Option (List JsonValue)) (hm : 1 ≤ m) :
    (∀ k r, k < m → (∀ i, i < k → q i = none) → q k = some r →
        get_data_paginated m q = (r, k + 1))
    ∧ ((∀ i, i < m → q i = none) → get_data_paginated m q = ([], m)) := by
  constructor
  · intro k r hk hfail hq
    have hm0 : m ≠ 0 := by omega
    rw [get_data_paginated, if_neg hm0]
    have := gdpGo_success q k m 0 r hk (fun i _ h2 => hfail i (by omega)) (by simpa using hq)
    simpa using this
  · intro hfail
    have hm0 : m ≠ 0 := by omega
    rw [get_data_paginated, if_neg hm0]
    have := gdpGo_all_fail q m 0 (by omega) (fun i _ h2 => hfail i (by omega))
    simpa using this

/-- C5 witness: a source failing once then succeeding returns the
successful page after 2 attempts; a source failing always returns the
empty signal after exactly 2 attempts. -/
theorem spec_c5_witness :
    get_data_paginated 2 (fun i => if i = 0 then none else some [JsonValue.null])
      = ([JsonValue.null], 2)
    ∧ get_data_paginated 2 (fun _ => none) = ([], 2) := by
  constructor
  · exact (spec_c5 2 _ (by omega)).1 1 [JsonValue.null] (by omega)
      (fun i hi => by simp [Nat.lt_one_iff.mp hi]) rfl
  · exact (spec_c5 2 _ (by omega)).2 (fun i _ => rfl)

/-! ## Page worker count (claims C1, C6) -/

lemma process_page_snd (bucket migType : String) (page : Nat) (d : List JsonValue)
    (ok : Bool) (bs : Nat) (db : MongoDB) :
    (process_page_mechoice bucket migType page d ok bs db).2 = (page, pageCount migType d) := by
  unfold process_page_mechoice pageCount
  by_cases h0 : d.isEmpty
  · simp [h0]
  · by_cases h1 : migType = "keep_structure"
    · subst h1; simp [h0]
    · by_cases h2 : migType = "restructure"
      · subst h2; simp [h0]
      · by_cases h3 : migType = "missing_type"
        · subst h3; simp [h0]
        · simp [h0, h1, h2, h3]

/-- C1 counterexample: a non-empty page holding one malformed record is
processed with zero documents written (the store is unchanged), yet the
worker returns success count 1, the record count of the page — so the
returned count is not the sum of successful writes. -/
theorem spec_c1_cex :
    process_page_mechoice "b" "keep_structure" 0 [.jstr "junk"] true 500 [] = ([], 0, 1)
    ∧ totalDocs [] = 0 ∧ (1 : Nat) ≠ 0 := by
  refine ⟨by rfl, rfl, by omega⟩

/-- C1 amended: for a page whose read succeeds with a non-empty record
list and a recognized migration type, the worker returns
`(pageIndex, len(pageData))` — the number of records read, counting
also records skipped as malformed or filtered as duplicates. -/
theorem spec_c1 (bucket migType : String) (page : Nat) (data : List JsonValue)
    (ok : Bool) (bs : Nat) (db : MongoDB) (hne : data ≠ [])
    (hmt : migType = "keep_structure" ∨ migType = "restructure" ∨ migType = "missing_type") :
    (process_page_mechoice bucket migType page data ok bs db).2 = (page, data.length) := by
  have h0 : data.isEmpty = false := by
    cases data with
    | nil => exact absurd rfl hne
    | cons a l => rfl
  rw [process_page_snd]
  rcases hmt with h | h | h <;> subst h <;> simp [pageCount, h0]

/-- C1 witness: a one-record well-formed page returns count 1. -/
theorem spec_c1_witness :
    (process_page_mechoice "b" "keep_structure" 3 [wrec] true 500 []).2 = (3, 1) := by
  exact spec_c1 "b" "keep_structure" 3 [wrec] true 500 [] (by simp) (Or.inl rfl)

/-- C2 counterexample: the keep-structure transform of the scenario
record succeeds, but the produced document has no `source_collection`
field at all — the source-collection tag is stored under the key
`bucket_name` — so the claimed target document is not produced. -/
theorem spec_c2_cex :
    transformKeep "orders" c2rec
      = some [("amount", .jstr "00012"), ("_id", .jstr "o1"), ("bucket_name", .jstr "orders")]
    ∧ jGet [("amount", JsonValue.jstr "00012"), ("_id", JsonValue.jstr "o1"),
        ("bucket_name", JsonValue.jstr "orders")] "source_collection" = none
    ∧ jGet [("amount", JsonValue.jstr "00012"), ("_id", JsonValue.jstr "o1"),
        ("bucket_name", JsonValue.jstr "orders")] "bucket_name" = some (.jstr "orders") := by
  exact ⟨by decide, by rfl, by rfl⟩

/-- C2 amended: the transform of the scenario record succeeds via the
normalization pass and yields, for destination collection `orders`, the
document with `amount` the quoted string, `_id` the record id, and the
source-collection tag stored under the key `bucket_name`. -/
theorem spec_c2 :
    transformKeep "orders" c2rec
      = some [("amount", .jstr "00012"), ("_id", .jstr "o1"), ("bucket_name", .jstr "orders")]
    ∧ json_loads "\x7b\"amount\": 00012\x7d" = none
    ∧ _normalize_json_string "\x7b\"amount\": 00012\x7d" = "\x7b\"amount\": \"00012\"\x7d" := by
  exact ⟨by decide, by decide, by decide⟩

/-- C4: evaluating the writer at a chunk with a reported bulk failure
on index 0 (id `a` already present) and a success on index 1 (id `b`).
The claim requires one `_id`-preserving individual retry of index 0 and
no re-insertion of index 1; the code instead falls through to four more
full-chunk bulk attempts, persisting five `_id`-stripped copies of the
failed document and four `_id`-stripped copies of the already-written
one. -/
theorem spec_c4_bug :
    dbColl (dal_add_documents (.jstr "c") c4docs 5 c3db) (.jstr "c")
      = [[("_id", .jstr "a")], [("_id", .jstr "b")],
         [("x", .jstr "v")], [("x", .jstr "v")], [], [("x", .jstr "v")], [],
         [("x", .jstr "v")], [], [("x", .jstr "v")], []]
    ∧ ((dbColl (dal_add_documents (.jstr "c") c4docs 5 c3db) (.jstr "c")).filter
        (fun d => decide (jGet d "_id" = none))).length = 9 := by
  exact ⟨by decide, by decide⟩

/-! ## Missing-type destination selection (claim C7) -/

/-- C7 counterexample: a record whose `_type` is present (the empty
string) but also carries a `count` field is routed to destination
`Count`, not to its `_type` value — presence of the discriminator is
not enough, the code tests its truthiness. -/
theorem spec_c7_cex :
    transformMissingType "mechoice_view" c7rec
      = some (.jstr "Count",
          [("_type", .jstr ""), ("count", .jnum "1"), ("_id", .jstr "m1"),
           ("bucket_name", .jstr "mechoice_view")])
    ∧ JsonValue.jstr "Count" ≠ JsonValue.jstr "" := by
  exact ⟨by decide, by decide⟩

/-- C7 amended: for every record passing the shared prologue (dict with
truthy id, nested value present and convertible to a mapping), the
missing-type strategy assigns it exactly one destination: the `_type`
value when `_type` is present and truthy; otherwise `Count` when a
non-null `count` field is present, else `Counter` when a non-null
`counter` field is present, else the fixed fallback
`mechoice_metadata`. -/
theorem spec_c7 (bucket : String) (rec : JsonValue) (i : JsonValue) (dv : JObj)
    (hp : recordPrep bucket rec = some (i, dv)) :
    transformMissingType bucket rec = some (missingTypeDest dv, mkFinalDoc dv i bucket)
    ∧ (∀ t, jGet dv "_type" = some t → truthy t = true → missingTypeDest dv = t)
    ∧ ((jGet dv "_type" = none ∨ ∃ t, jGet dv "_type" = some t ∧ truthy t = false) →
        (isNotNone (jGet dv "count") = true → missingTypeDest dv = .jstr "Count")
        ∧ (isNotNone (jGet dv "count") = false → isNotNone (jGet dv "counter") = true →
            missingTypeDest dv = .jstr "Counter")
        ∧ (isNotNone (jGet dv "count") = false → isNotNone (jGet dv "counter") = false →
            missingTypeDest dv = .jstr "mechoice_metadata")) := by
  refine ⟨by simp [transformMissingType, hp], ?_, ?_⟩
  · intro t ht htr
    simp [missingTypeDest, ht, htr]
  · intro hfb
    have hdest : missingTypeDest dv = missingTypeFallback dv := by
      rcases hfb with h | ⟨t, ht, htr⟩
      · simp [missingTypeDest, h]
      · simp [missingTypeDest, ht, htr]
    refine ⟨?_, ?_, ?_⟩
    · intro hc; rw [hdest]; simp [missingTypeFallback, hc]
    · intro hc hc2; rw [hdest]; simp [missingTypeFallback, hc, hc2]
    · intro hc hc2; rw [hdest]; simp [missingTypeFallback, hc, hc2]

/-- C7 witness: a record with no `_type` and a non-null `counter` field
is routed to `Counter`. -/
theorem spec_c7_witness :
    transformMissingType "mechoice_view"
        (.jobj [("id", .jstr "m2"), ("mechoice_view", .jobj [("counter", .jnum "3")])])
      = some (missingTypeDest [("counter", .jnum "3")],
          mkFinalDoc [("counter", .jnum "3")] (.jstr "m2") "mechoice_view")
    ∧ missingTypeDest [("counter", .jnum "3")] = .jstr "Counter" := by
  have h := spec_c7 "mechoice_view"
    (.jobj [("id", .jstr "m2"), ("mechoice_view", .jobj [("counter", .jnum "3")])])
    (.jstr "m2") [("counter", .jnum "3")] (by decide)
  exact ⟨h.1, ((h.2.2 (Or.inl (by decide))).2.1 (by decide) (by decide))⟩

/-! ## String-value conversion tolerance (claim C8) -/

/-- C8: for a record whose nested value is a string, the transformer
first tries a direct parse; only when that fails does it parse the
normalized string; a result that is not a mapping, or a double parse
failure, yields `none`, and such a record is dropped by the strategy
loop (zero documents produced, store unchanged) — the conversion is a
total function, so no exception escapes. -/
theorem spec_c8 (s : String) (bucket : String) (db : MongoDB) (ok : Bool) (bs : Nat)
    (hb : bucket ≠ "id") :
    (∀ f, json_loads s = some (.jobj f) → _convert_doc_value (.jstr s) = some (.jobj f))
    ∧ (∀ v, json_loads s = some v → (∀ f, v ≠ .jobj f) →
        _convert_doc_value (.jstr s) = none)
    ∧ (json_loads s = none →
        (∀ f, json_loads (_normalize_json_string s) = some (.jobj f) →
            _convert_doc_value (.jstr s) = some (.jobj f))
        ∧ (∀ v, json_loads (_normalize_json_string s) = some v → (∀ f, v ≠ .jobj f) →
            _convert_doc_value (.jstr s) = none)
        ∧ (json_loads (_normalize_json_string s) = none →
            _convert_doc_value (.jstr s) = none))
    ∧ (_convert_doc_value (.jstr s) = none →
        List.filterMap (transformKeep bucket)
            [.jobj [("id", .jstr "rid"), (bucket, .jstr s)]] = []
        ∧ process_mechoice_keep_structure bucket
            [.jobj [("id", .jstr "rid"), (bucket, .jstr s)]] ok bs db = db) := by
  refine ⟨?_, ?_, ?_, ?_⟩
  · intro f hf
    simp [_convert_doc_value, hf]
  · intro v hv hne
    cases v <;> simp [_convert_doc_value, hv]
    exact absurd rfl (hne _)
  · intro h1
    refine ⟨?_, ?_, ?_⟩
    · intro f hf
      simp [_convert_doc_value, h1, hf]
    · intro v hv hne
      cases v <;> simp [_convert_doc_value, h1, hv]
      exact absurd rfl (hne _)
    · intro h2
      simp [_convert_doc_value, h1, h2]
  · intro hconv
    have htk : transformKeep bucket (.jobj [("id", .jstr "rid"), (bucket, .jstr s)]) = none := by
      have hid : ("id" : String) ≠ bucket := fun h => hb h.symm
      simp [transformKeep, recordPrep, jGet, hid, truthy, hconv]
    refine ⟨by simp [htk], ?_⟩
    rw [process_mechoice_keep_structure]
    simp [htk]

/-- C8 witness: a string that fails both parses is dropped: the
conversion returns `none`, the page produces no document and the store
is unchanged. -/
theorem spec_c8_witness :
    _convert_doc_value (.jstr "xyz") = none
    ∧ List.filterMap (transformKeep "orders")
        [.jobj [("id", .jstr "rid"), ("orders", .jstr "xyz")]] = []
    ∧ process_mechoice_keep_structure "orders"
        [.jobj [("id", .jstr "rid"), ("orders", .jstr "xyz")]] true 500 [] = [] := by
  have h := spec_c8 "xyz" "orders" [] true 500 (by decide)
  have hconv : _convert_doc_value (.jstr "xyz") = none :=
    (h.2.2.1 (by decide)).2.2 (by decide)
  have hd := h.2.2.2 hconv
  exact ⟨hconv, hd.1, hd.2⟩

/-! ## Dedup-failure fallback (claim C10) -/

/-- C10: when the batch duplicate-membership query fails, the check
returns the empty set instead of raising, so every transformed document
of the page is kept: the filtered unique set equals the whole processed
set and insertion of the entire batch is attempted — the page is
neither aborted nor are documents skipped by deduplication. -/
theorem spec_c10 :
    (∀ (db : MongoDB) (c : JsonValue) (ids : List JsonValue),
        _check_duplicates_batch db c ids false = [])
    ∧ (∀ (bucket : String) (data : List JsonValue) (bs : Nat) (db : MongoDB),
        data.filterMap (transformKeep bucket) ≠ [] →
        process_mechoice_keep_structure bucket data false bs db
          = insert_in_batches (.jstr bucket) (data.filterMap (transformKeep bucket)) bs db) := by
  have hchk : ∀ (db : MongoDB) (c : JsonValue) (ids : List JsonValue),
      _check_duplicates_batch db c ids false = [] := by
    intro db c ids
    rw [_check_duplicates_batch]
    by_cases h : ids = [] <;> simp [h]
  refine ⟨hchk, ?_⟩
  intro bucket data bs db hne
  rw [process_mechoice_keep_structure]
  simp only [if_neg hne]
  rw [writeGroup]
  simp only [hchk]
  have hfilter : (data.filterMap (transformKeep bucket)).filter
      (fun d => ! decide ((jGet d "_id").getD .null ∈ ([] : List JsonValue))) =
      data.filterMap (transformKeep bucket) := by
    simp
  rw [hfilter, if_neg hne]

/-- C10 witness: with a failing dedup query on a one-record page, the
check returns the empty set and the full batch is inserted. -/
theorem spec_c10_witness :
    _check_duplicates_batch [] (.jstr "b") [.jstr "r1"] false = []
    ∧ process_mechoice_keep_structure "b" [wrec] false 500 []
        = insert_in_batches (.jstr "b") (List.filterMap (transformKeep "b") [wrec]) 500 [] := by
  exact ⟨spec_c10.1 [] (.jstr "b") [.jstr "r1"],
    spec_c10.2 "b" [wrec] 500 [] (by decide)⟩

/-! ## Write-path provenance lemmas (claims C3, C9) -/

lemma mkFinalDoc_id (dv : JObj) (i : JsonValue) (bucket : String) :
    jGet (mkFinalDoc dv i bucket) "_id" = some i := by
  rw [mkFinalDoc, jGet_jInsert_ne _ _ _ _ (by decide), jGet_jInsert_self]

lemma recordPrep_id (bucket : String) (rec : JsonValue) (i : JsonValue) (dv : JObj)
    (h : recordPrep bucket rec = some (i, dv)) :
    ∃ o, rec = .jobj o ∧ jGet o "id" = some i := by
  cases rec with
  | jobj o =>
    refine ⟨o, rfl, ?_⟩
    rw [recordPrep] at h
    cases hg : jGet o "id" with
    | none => simp [hg] at h
    | some i0 =>
      simp only [hg] at h
      by_cases ht : truthy i0
      · simp only [ht, if_true] at h
        cases hb : jGet o bucket with
        | none => simp [hb] at h
        | some v =>
          simp only [hb] at h
          by_cases hv : v = .null
          · simp [hv] at h
          · simp only [if_neg hv] at h
            cases hc : _convert_doc_value v with
            | none => simp [hc] at h
            | some p =>
              simp only [hc] at h
              cases p with
              | jobj dv0 =>
                simp only [Option.some.injEq, Prod.mk.injEq] at h
                exact congrArg some h.1
              | null => simp at h
              | jbool b => simp at h
              | jnum s => simp at h
              | jstr s => simp at h
              | jarr xs => simp at h
      · simp [ht] at h
  | null => simp [recordPrep] at h
  | jbool b => simp [recordPrep] at h
  | jnum s => simp [recordPrep] at h
  | jstr s => simp [recordPrep] at h
  | jarr xs => simp [recordPrep] at h

lemma mem_dbColl_insertOne (db : MongoDB) (c c' : JsonValue) (d d0 : JObj)
    (h : d ∈ dbColl db c) : d ∈ dbColl (dal_insert_one db c' d0) c := by
  rw [dal_insert_one]
  cases hg : jGet d0 "_id" with
  | none => exact mem_dbColl_dbPush _ _ _ _ _ h
  | some x =>
    by_cases hx : x ∈ collIds (dbColl db c')
    · simp only [if_pos hx]; exact h
    · simp only [if_neg hx]; exact mem_dbColl_dbPush db c c' d d0 h

lemma insertOne_prov (db : MongoDB) (c : JsonValue) (d d0 : JObj)
    (h : d ∈ dbColl (dal_insert_one db c d0) c) : d ∈ dbColl db c ∨ d = d0 := by
  rw [dal_insert_one] at h
  have hpush : d ∈ dbColl (dbPush db c d0) c → d ∈ dbColl db c ∨ d = d0 := by
    intro hp
    rw [dbColl_dbPush_self] at hp
    rcases List.mem_append.mp hp with h1 | h1
    · exact Or.inl h1
    · exact Or.inr (List.mem_singleton.mp h1)
  cases hg : jGet d0 "_id" with
  | none => simp only [hg] at h; exact hpush h
  | some x =>
    simp only [hg] at h
    by_cases hx : x ∈ collIds (dbColl db c)
    · rw [if_pos hx] at h; exact Or.inl h
    · rw [if_neg hx] at h; exact hpush h

lemma many_go_mono (c c' : JsonValue) (d : JObj) :
    ∀ (ds : List JObj) (i : Nat) (db : MongoDB), d ∈ dbColl db c' →
      d ∈ dbColl (dal_insert_many_go c ds i db).1 c' := by
  intro ds
  induction ds with
  | nil => intro i db h; simpa [dal_insert_many_go] using h
  | cons d0 t ih =>
    intro i db h
    rw [dal_insert_many_go]
    cases hg : jGet d0 "_id" with
    | none => exact ih _ _ (mem_dbColl_dbPush _ _ _ _ _ h)
    | some x =>
      by_cases hx : x ∈ collIds (dbColl db c)
      · simp only [if_pos hx]; exact ih (i + 1) db h
      · simp only [if_neg hx]; exact ih (i + 1) (dbPush db c d0) (mem_dbColl_dbPush _ _ _ _ _ h)

lemma many_go_prov (c : JsonValue) (d : JObj) :
    ∀ (ds : List JObj) (i : Nat) (db : MongoDB),
      d ∈ dbColl (dal_insert_many_go c ds i db).1 c →
      d ∈ dbColl db c ∨ d ∈ ds := by
  intro ds
  induction ds with
  | nil => intro i db h; simpa [dal_insert_many_go] using h
  | cons d0 t ih =>
    intro i db h
    rw [dal_insert_many_go] at h
    have hpush : d ∈ dbColl (dal_insert_many_go c t (i + 1) (dbPush db c d0)).1 c →
        d ∈ dbColl db c ∨ d ∈ d0 :: t := by
      intro hp
      rcases ih (i + 1) _ hp with h1 | h1
      · rw [dbColl_dbPush_self] at h1
        rcases List.mem_append.mp h1 with h2 | h2
        · exact Or.inl h2
        · exact Or.inr (by simp [List.mem_singleton.mp h2])
      · exact Or.inr (List.mem_cons_of_mem _ h1)
    cases hg : jGet d0 "_id" with
    | none => simp only [hg] at h; exact hpush h
    | some x =>
      simp only [hg] at h
      by_cases hx : x ∈ collIds (dbColl db c)
      · rw [if_pos hx] at h
        rcases ih (i + 1) db (by simpa using h) with h1 | h1
        · exact Or.inl h1
        · exact Or.inr (List.mem_cons_of_mem _ h1)
      · rw [if_neg hx] at h; exact hpush h

lemma many_go_covers (c : JsonValue) (d0 : JObj) (x : JsonValue)
    (hx : jGet d0 "_id" = some x) :
    ∀ (ds : List JObj) (i : Nat) (db : MongoDB), d0 ∈ ds →
      x ∈ collIds (dbColl (dal_insert_many_go c ds i db).1 c) := by
  intro ds
  induction ds with
  | nil => intro i db h; exact absurd h (List.not_mem_nil _)
  | cons dh t ih =>
    intro i db hmem
    rw [dal_insert_many_go]
    rcases List.mem_cons.mp hmem with rfl | hmem'
    · simp only [hx]
      by_cases hin : x ∈ collIds (dbColl db c)
      · obtain ⟨w, hw, hwid⟩ := List.mem_filterMap.mp hin
        have hmono := many_go_mono c c w t (i + 1) db hw
        simp only [if_pos hin]
        exact List.mem_filterMap.mpr ⟨w, hmono, hwid⟩
      · have hself : d0 ∈ dbColl (dbPush db c d0) c := by
          rw [dbColl_dbPush_self]; exact List.mem_append_right _ (List.mem_singleton_self _)
        have hmono := many_go_mono c c d0 t (i + 1) (dbPush db c d0) hself
        simp only [if_neg hin]
        exact List.mem_filterMap.mpr ⟨d0, hmono, hx⟩
    · cases hg : jGet dh "_id" with
      | none => exact ih _ _ hmem'
      | some y =>
        by_cases hy : y ∈ collIds (dbColl db c)
        · simp only [if_pos hy]; exact ih (i + 1) db hmem'
        · simp only [if_neg hy]; exact ih (i + 1) (dbPush db c dh) hmem'

lemma retry_fold_mono (c c' : JsonValue) (docs : List JObj) (d : JObj) :
    ∀ (failed : List Nat) (db : MongoDB), d ∈ dbColl db c' →
      d ∈ dbColl (failed.foldl (retryStep c docs) db) c' := by
  intro failed
  induction failed with
  | nil => intro db h; exact h
  | cons i t ih =>
    intro db h
    refine ih _ ?_
    rw [retryStep]
    cases hg : docs.get? i with
    | none => exact h
    | some d0 => exact mem_dbColl_insertOne _ _ _ _ _ h

lemma retry_fold_prov (c : JsonValue) (docs : List JObj) (d : JObj) :
    ∀ (failed : List Nat) (db : MongoDB),
      d ∈ dbColl (failed.foldl (retryStep c docs) db) c →
      d ∈ dbColl db c ∨ ∃ d0 ∈ docs, d = jErase d0 "_id" := by
  intro failed
  induction failed with
  | nil => intro db h; exact Or.inl h
  | cons i t ih =>
    intro db h
    rcases ih _ h with h1 | h1
    · rw [retryStep] at h1
      cases hg : docs.get? i with
      | none => rw [hg] at h1; exact Or.inl h1
      | some d0 =>
        rw [hg] at h1
        rcases insertOne_prov _ _ _ _ h1 with h2 | h2
        · exact Or.inl h2
        · exact Or.inr ⟨d0, List.get?_mem hg, h2⟩
    · exact Or.inr h1

lemma dal_add_mono (c c' : JsonValue) (docs : List JObj) (d : JObj) :
    ∀ (n : Nat) (db : MongoDB), d ∈ dbColl db c' →
      d ∈ dbColl (dal_add_documents c docs n db) c' := by
  intro n
  induction n with
  | zero => intro db h; exact h
  | succ m ih =>
    intro db h
    rw [dal_add_documents]
    by_cases hf : (dal_insert_many_go c docs 0 db).2 = []
    · simp only [if_pos hf]
      exact many_go_mono c c' d docs 0 db h
    · simp only [if_neg hf]
      exact ih _ (retry_fold_mono c c' docs d _ _ (many_go_mono c c' d docs 0 db h))

lemma collIds_mono_dal_add (c c' : JsonValue) (docs : List JObj) (x : JsonValue)
    (n : Nat) (db : MongoDB) (h : x ∈ collIds (dbColl db c')) :
    x ∈ collIds (dbColl (dal_add_documents c docs n db) c') := by
  obtain ⟨w, hw, hwid⟩ := List.mem_filterMap.mp h
  exact List.mem_filterMap.mpr ⟨w, dal_add_mono c c' docs w n db hw, hwid⟩

lemma dal_add_prov (c : JsonValue) (docs : List JObj) (d : JObj) :
    ∀ (n : Nat) (db : MongoDB), d ∈ dbColl (dal_add_documents c docs n db) c →
      d ∈ dbColl db c ∨ d ∈ docs ∨ ∃ d0 ∈ docs, d = jErase d0 "_id" := by
  intro n
  induction n with
  | zero => intro db h; exact Or.inl h
  | succ m ih =>
    intro db h
    rw [dal_add_documents] at h
    by_cases hf : (dal_insert_many_go c docs 0 db).2 = []
    · simp only [if_pos hf] at h
      rcases many_go_prov c d docs 0 db h with h1 | h1
      · exact Or.inl h1
      · exact Or.inr (Or.inl h1)
    · simp only [if_neg hf] at h
      rcases ih _ h with h1 | h1
      · rcases retry_fold_prov c docs d _ _ h1 with h2 | h2
        · rcases many_go_prov c d docs 0 db h2 with h3 | h3
          · exact Or.inl h3
          · exact Or.inr (Or.inl h3)
        · exact Or.inr (Or.inr h2)
      · exact Or.inr h1

lemma dal_add_covers (c : JsonValue) (docs : List JObj) (d0 : JObj) (x : JsonValue)
    (hx : jGet d0 "_id" = some x) (m : Nat) (db : MongoDB) (hmem : d0 ∈ docs) :
    x ∈ collIds (dbColl (dal_add_documents c docs (m + 1) db) c) := by
  rw [dal_add_documents]
  have hcov := many_go_covers c d0 x hx docs 0 db hmem
  by_cases hf : (dal_insert_many_go c docs 0 db).2 = []
  · simp only [if_pos hf]; exact hcov
  · simp only [if_neg hf]
    obtain ⟨w, hw, hwid⟩ := List.mem_filterMap.mp hcov
    have h1 := retry_fold_mono c c docs w (dal_insert_many_go c docs 0 db).2
      (dal_insert_many_go c docs 0 db).1 hw
    exact collIds_mono_dal_add c c docs x m _ (List.mem_filterMap.mpr ⟨w, h1, hwid⟩)

lemma chunkGo_flat {α : Type} (n : Nat) :
    ∀ (fuel : Nat) (xs : List α), (chunkGo fuel n xs).flatten = xs := by
  intro fuel
  induction fuel with
  | zero =>
    intro xs
    cases xs with
    | nil => simp [chunkGo]
    | cons a l => simp [chunkGo]
  | succ f ih =>
    intro xs
    cases xs with
    | nil => simp [chunkGo]
    | cons a l =>
      have h1 : chunkGo (f + 1) n (a :: l)
          = (a :: l).take n :: chunkGo f n ((a :: l).drop n) := rfl
      rw [h1, List.flatten_cons, ih]
      exact List.take_append_drop n (a :: l)

lemma batches_mono (c c' : JsonValue) (d : JObj) :
    ∀ (chs : List (List JObj)) (db : MongoDB), d ∈ dbColl db c' →
      d ∈ dbColl (chs.foldl (fun acc b => dal_add_documents c b 5 acc) db) c' := by
  intro chs
  induction chs with
  | nil => intro db h; exact h
  | cons ch t ih => intro db h; exact ih _ (dal_add_mono c c' ch d 5 db h)

lemma batches_covers_aux (c : JsonValue) (d0 : JObj) (x : JsonValue)
    (hx : jGet d0 "_id" = some x) :
    ∀ (chs : List (List JObj)) (db : MongoDB),
      (x ∈ collIds (dbColl db c) ∨ ∃ ch ∈ chs, d0 ∈ ch) →
      x ∈ collIds (dbColl (chs.foldl (fun acc b => dal_add_documents c b 5 acc) db) c) := by
  intro chs
  induction chs with
  | nil =>
    intro db h
    rcases h with h | ⟨ch, hch, _⟩
    · exact h
    · exact absurd hch (List.not_mem_nil _)
  | cons ch t ih =>
    intro db h
    rcases h with h | ⟨ch', hch', hd⟩
    · exact ih _ (Or.inl (collIds_mono_dal_add c c ch x 5 db h))
    · rcases List.mem_cons.mp hch' with rfl | hch''
      · exact ih _ (Or.inl (dal_add_covers c ch' d0 x hx 4 db hd))
      · exact ih _ (Or.inr ⟨ch', hch'', hd⟩)

lemma batches_covers (c : JsonValue) (docs : List JObj) (bs : Nat) (db : MongoDB)
    (d0 : JObj) (x : JsonValue) (hx : jGet d0 "_id" = some x) (hmem : d0 ∈ docs) :
    x ∈ collIds (dbColl (insert_in_batches c docs bs db) c) := by
  rw [insert_in_batches]
  refine batches_covers_aux c d0 x hx _ db (Or.inr ?_)
  have hj : d0 ∈ (chunkGo docs.length bs docs).flatten := by
    rw [chunkGo_flat]; exact hmem
  exact List.mem_flatten.mp hj

lemma collIds_mono_batches (c c' : JsonValue) (docs : List JObj) (bs : Nat)
    (db : MongoDB) (x : JsonValue) (h : x ∈ collIds (dbColl db c')) :
    x ∈ collIds (dbColl (insert_in_batches c docs bs db) c') := by
  obtain ⟨w, hw, hwid⟩ := List.mem_filterMap.mp h
  rw [insert_in_batches]
  exact List.mem_filterMap.mpr ⟨w, batches_mono c c' w _ db hw, hwid⟩

lemma check_sub (db : MongoDB) (c : JsonValue) (ids : List JsonValue) (ok : Bool)
    (x : JsonValue) (h : x ∈ _check_duplicates_batch db c ids ok) :
    x ∈ collIds (dbColl db c) := by
  rw [_check_duplicates_batch] at h
  by_cases hi : ids = []
  · simp [hi] at h
  · simp only [if_neg hi] at h
    cases ok with
    | true =>
      have h2 : x ∈ ids ∧ x ∈ collIds (dbColl db c) := by simpa using h
      exact h2.2
    | false => simp at h

/-! ## Claim C3: `_id` on the write paths -/

/-- C3 counterexample: running the writer on a chunk whose only
document conflicts on `_id` ends with a persisted document that has no
`_id` field at all — the single-document retry path pops `_id` before
inserting, so not every written document carries the source record's
id. -/
theorem spec_c3_cex :
    dbColl (dal_add_documents (.jstr "c") c3docs 5 c3db) (.jstr "c")
      = [[("_id", .jstr "a")], [("x", .jstr "v")], [("x", .jstr "v")],
         [("x", .jstr "v")], [("x", .jstr "v")], [("x", .jstr "v")]]
    ∧ [("x", JsonValue.jstr "v")] ∈ dbColl (dal_add_documents (.jstr "c") c3docs 5 c3db) (.jstr "c")
    ∧ jGet [("x", JsonValue.jstr "v")] "_id" = none := by
  exact ⟨by decide, by decide, by rfl⟩

/-- C3 amended: every document built by the transformer carries `_id`
equal to the originating record's `id`, and on the bulk path that is
what reaches the store; but a document that lands in the store through
the single-document retry path is exactly an input document with its
`_id` popped, and so carries no `_id` — the invariant holds on the bulk
path only. -/
theorem spec_c3 :
    (∀ (bucket : String) (rec : JsonValue) (i : JsonValue) (dv : JObj),
        recordPrep bucket rec = some (i, dv) →
        jGet (mkFinalDoc dv i bucket) "_id" = some i
        ∧ ∃ o, rec = .jobj o ∧ jGet o "id" = some i)
    ∧ (∀ (c : JsonValue) (docs : List JObj) (n : Nat) (db : MongoDB) (d : JObj),
        d ∈ dbColl (dal_add_documents c docs n db) c →
        d ∈ dbColl db c ∨ d ∈ docs
          ∨ ∃ d0 ∈ docs, d = jErase d0 "_id" ∧ jGet d "_id" = none) := by
  constructor
  · intro bucket rec i dv h
    exact ⟨mkFinalDoc_id dv i bucket, recordPrep_id bucket rec i dv h⟩
  · intro c docs n db d h
    rcases dal_add_prov c docs d n db h with h1 | h1 | ⟨d0, hd0, he⟩
    · exact Or.inl h1
    · exact Or.inr (Or.inl h1)
    · exact Or.inr (Or.inr ⟨d0, hd0, he, he ▸ jGet_jErase_self d0 "_id"⟩)

/-- C3 witness: the transformed scenario record carries its record id
as `_id`; and on a concrete partial-failure run every stored document
is accounted for by the three provenance cases. -/
theorem spec_c3_witness :
    (jGet (mkFinalDoc [("f", .jnum "7")] (.jstr "r1") "b") "_id" = some (.jstr "r1")
      ∧ ∃ o, wrec = .jobj o ∧ jGet o "id" = some (.jstr "r1"))
    ∧ ([("x", JsonValue.jstr "v")] ∈ dbColl c3db (.jstr "c")
        ∨ [("x", JsonValue.jstr "v")] ∈ c3docs
        ∨ ∃ d0 ∈ c3docs, [("x", JsonValue.jstr "v")] = jErase d0 "_id"
            ∧ jGet [("x", JsonValue.jstr "v")] "_id" = none) := by
  constructor
  · exact spec_c3.1 "b" wrec (.jstr "r1") [("f", .jnum "7")] (by decide)
  · exact spec_c3.2 (.jstr "c") c3docs 1 c3db [("x", JsonValue.jstr "v")] (by decide)

/-! ## Claim C9: idempotence of the deduplicated page write -/

lemma transformKeep_id (bucket : String) (rec : JsonValue) (d : JObj)
    (h : transformKeep bucket rec = some d) : ∃ i, jGet d "_id" = some i := by
  rw [transformKeep] at h
  cases hp : recordPrep bucket rec with
  | none => rw [hp] at h; simp at h
  | some p =>
    rw [hp] at h
    have h2 : mkFinalDoc p.2 p.1 bucket = d := by simpa using h
    exact ⟨p.1, h2 ▸ mkFinalDoc_id p.2 p.1 bucket⟩

lemma mem_processed_id (bucket : String) (data : List JsonValue) (d : JObj)
    (hd : d ∈ data.filterMap (transformKeep bucket)) : ∃ i, jGet d "_id" = some i := by
  obtain ⟨rec, _, hrec⟩ := List.mem_filterMap.mp hd
  exact transformKeep_id bucket rec d hrec

lemma keep_ids_present (bucket : String) (data : List JsonValue) (bs : Nat) (db : MongoDB)
    (d : JObj) (hd : d ∈ data.filterMap (transformKeep bucket)) (x : JsonValue)
    (hx : jGet d "_id" = some x) :
    x ∈ collIds
      (dbColl (process_mechoice_keep_structure bucket data true bs db) (.jstr bucket)) := by
  have hne : data.filterMap (transformKeep bucket) ≠ [] := List.ne_nil_of_mem hd
  rw [process_mechoice_keep_structure]
  simp only [if_neg hne]
  rw [writeGroup]
  by_cases hxin : x ∈ collIds (dbColl db (.jstr bucket))
  · by_cases hu : (data.filterMap (transformKeep bucket)).filter
        (fun d => ! decide ((jGet d "_id").getD .null ∈
          _check_duplicates_batch db (.jstr bucket)
            ((data.filterMap (transformKeep bucket)).filterMap (fun d => jGet d "_id"))
            true)) = []
    · simp only [if_pos hu]; exact hxin
    · simp only [if_neg hu]
      exact collIds_mono_batches _ _ _ _ _ _ hxin
  · have hxex : x ∉ _check_duplicates_batch db (.jstr bucket)
        ((data.filterMap (transformKeep bucket)).filterMap (fun d => jGet d "_id")) true :=
      fun hmem => hxin (check_sub _ _ _ _ _ hmem)
    have hdu : d ∈ (data.filterMap (transformKeep bucket)).filter
        (fun d => ! decide ((jGet d "_id").getD .null ∈
          _check_duplicates_batch db (.jstr bucket)
            ((data.filterMap (transformKeep bucket)).filterMap (fun d => jGet d "_id"))
            true)) := by
      refine List.mem_filter.mpr ⟨hd, ?_⟩
      rw [hx]
      simpa using hxex
    have hu : (data.filterMap (transformKeep bucket)).filter
        (fun d => ! decide ((jGet d "_id").getD .null ∈
          _check_duplicates_batch db (.jstr bucket)
            ((data.filterMap (transformKeep bucket)).filterMap (fun d => jGet d "_id"))
            true)) ≠ [] := List.ne_nil_of_mem hdu
    simp only [if_neg hu]
    exact batches_covers _ _ bs db d x hx hdu

/-- C9: running the same page twice against the same destination is
idempotent: the second run's duplicate check covers every transformed
`_id`, the filtered unique set is empty, and the store is unchanged —
zero new documents are written. -/
theorem spec_c9 (bucket : String) (data : List JsonValue) (bs : Nat) (db : MongoDB)
    (_hbs : 0 < bs) :
    process_mechoice_keep_structure bucket data true bs
        (process_mechoice_keep_structure bucket data true bs db)
      = process_mechoice_keep_structure bucket data true bs db
    ∧ (data.filterMap (transformKeep bucket)).filter
        (fun d => ! decide ((jGet d "_id").getD .null ∈
          _check_duplicates_batch (process_mechoice_keep_structure bucket data true bs db)
            (.jstr bucket)
            ((data.filterMap (transformKeep bucket)).filterMap (fun d => jGet d "_id"))
            true)) = [] := by
  by_cases hp : data.filterMap (transformKeep bucket) = []
  · constructor
    · conv_lhs => rw [process_mechoice_keep_structure]
      simp only [if_pos hp]
    · rw [hp]; rfl
  · have hfilter : (data.filterMap (transformKeep bucket)).filter
        (fun d => ! decide ((jGet d "_id").getD .null ∈
          _check_duplicates_batch (process_mechoice_keep_structure bucket data true bs db)
            (.jstr bucket)
            ((data.filterMap (transformKeep bucket)).filterMap (fun d => jGet d "_id"))
            true)) = [] := by
      rw [List.filter_eq_nil_iff]
      intro d hd
      obtain ⟨x, hx⟩ := mem_processed_id bucket data d hd
      have hxin := keep_ids_present bucket data bs db d hd x hx
      have hxid : x ∈ (data.filterMap (transformKeep bucket)).filterMap
          (fun d => jGet d "_id") := List.mem_filterMap.mpr ⟨d, hd, hx⟩
      have hids : (data.filterMap (transformKeep bucket)).filterMap
          (fun d => jGet d "_id") ≠ [] := List.ne_nil_of_mem hxid
      have hmem : x ∈ _check_duplicates_batch
          (process_mechoice_keep_structure bucket data true bs db) (.jstr bucket)
          ((data.filterMap (transformKeep bucket)).filterMap (fun d => jGet d "_id"))
          true := by
        rw [_check_duplicates_batch]
        simp only [if_neg hids, if_pos rfl]
        exact List.mem_filter.mpr ⟨hxid, by simpa using hxin⟩
      simp [hx, hmem]
    refine ⟨?_, hfilter⟩
    conv_lhs => rw [process_mechoice_keep_structure]
    simp only [if_neg hp]
    rw [writeGroup]
    simp [hfilter]

/-- C9 witness: a concrete second run over an already-migrated page
leaves the store unchanged and filters out every candidate. -/
theorem spec_c9_witness :
    process_mechoice_keep_structure "b" [wrec] true 500
        (process_mechoice_keep_structure "b" [wrec] true 500 [])
      = process_mechoice_keep_structure "b" [wrec] true 500 []
    ∧ (List.filterMap (transformKeep "b") [wrec]).filter
        (fun d => ! decide ((jGet d "_id").getD .null ∈
          _check_duplicates_batch (process_mechoice_keep_structure "b" [wrec] true 500 [])
            (.jstr "b")
            ((List.filterMap (transformKeep "b") [wrec]).filterMap (fun d => jGet d "_id"))
            true)) = [] := by
  exact spec_c9 "b" [wrec] 500 [] (by omega)

/-! ## Claim C6: the coordinator -/

lemma mig_fold (bucket migType : String) (ok : Bool) (bs : Nat)
    (read : Nat → List JsonValue) :
    ∀ (l : List Nat) (db : MongoDB) (t0 : Nat) (f0 : List Nat),
      (l.foldl (migStep bucket migType ok bs read) (db, t0, f0)).2
        = (t0 + (l.map (fun p => pageCount migType (read p))).sum,
           f0 ++ l.filter (fun p => pageCount migType (read p) = 0)) := by
  intro l
  induction l with
  | nil => intro db t0 f0; simp
  | cons p t ih =>
    intro db t0 f0
    rw [List.foldl_cons]
    have hstep : migStep bucket migType ok bs read (db, t0, f0) p
        = ((process_page_mechoice bucket migType p (read p) ok bs db).1,
           t0 + pageCount migType (read p),
           if pageCount migType (read p) = 0 then f0 ++ [p] else f0) := by
      rw [migStep]
      rw [process_page_snd bucket migType p (read p) ok bs db]
    rw [hstep, ih]
    by_cases hpc : pageCount migType (read p) = 0
    · simp [hpc, List.filter_cons, Nat.add_assoc, List.append_assoc]
    · simp [hpc, List.filter_cons, Nat.add_assoc]

/-- C6: the coordinator submits exactly the pages `[0, totalPages)`
with `totalPages = ceil(totalCount / pageSize)` (one page when the
count is zero), accumulates `total_processed` as the sum of the
per-page counts, and records exactly the zero-count pages as failed;
in the 2,500-record scenario with pageSize 1000 where pages 0 and 1
yield 1000 records each and page 2's read fails on all 3 attempts, it
reports 2000 processed and failed pages `[2]`. -/
theorem spec_c6 (bucket migType : String) (tc ps : Nat) (read : Nat → List JsonValue)
    (ok : Bool) (bs : Nat) (db : MongoDB) (_hps : 0 < ps) :
    ((migrate_bucket_mechoice bucket migType tc ps read ok bs db).2.1
        = ((List.range (if 0 < tc then (tc + ps - 1) / ps else 1)).map
            (fun p => pageCount migType (read p))).sum
      ∧ (migrate_bucket_mechoice bucket migType tc ps read ok bs db).2.2
        = (List.range (if 0 < tc then (tc + ps - 1) / ps else 1)).filter
            (fun p => pageCount migType (read p) = 0))
    ∧ (migrate_bucket_mechoice "orders" "keep_structure" 2500 1000 c6read true 500 []).2
        = (2000, [2]) := by
  refine ⟨⟨?_, ?_⟩, ?_⟩
  · simp only [migrate_bucket_mechoice, mig_fold]
    simp
  · simp only [migrate_bucket_mechoice, mig_fold]
    simp
  · simp only [migrate_bucket_mechoice, mig_fold]
    have hrange : (if 0 < 2500 then (2500 + 1000 - 1) / 1000 else 1) = 3 := by norm_num
    rw [hrange]
    have hr3 : List.range 3 = [0, 1, 2] := rfl
    rw [hr3]
    have hc0 : c6read 0 = List.replicate 1000 c6rec := rfl
    have hie : (List.replicate 1000 c6rec).isEmpty = false := rfl
    have h0 : pageCount "keep_structure" (c6read 0) = 1000 := by
      rw [hc0, pageCount, hie, if_neg (by decide), if_pos (Or.inl rfl),
        List.length_replicate]
    have hc1 : c6read 1 = List.replicate 1000 c6rec := rfl
    have h1 : pageCount "keep_structure" (c6read 1) = 1000 := by
      rw [hc1, pageCount, hie, if_neg (by decide), if_pos (Or.inl rfl),
        List.length_replicate]
    have hc2 : c6read 2 = [] := rfl
    have h2 : pageCount "keep_structure" (c6read 2) = 0 := by rw [hc2]; rfl
    simp [h0, h1, h2]

/-- C6 witness: a zero-count migration is one page of zero records,
processed total 0 and failed pages `[0]`. -/
theorem spec_c6_witness :
    ((migrate_bucket_mechoice "b" "keep_structure" 0 1 (fun _ => []) true 500 []).2.1
        = ((List.range (if 0 < 0 then (0 + 1 - 1) / 1 else 1)).map
            (fun p => pageCount "keep_structure" ((fun _ => ([] : List JsonValue)) p))).sum
      ∧ (migrate_bucket_mechoice "b" "keep_structure" 0 1 (fun _ => []) true 500 []).2.2
        = (List.range (if 0 < 0 then (0 + 1 - 1) / 1 else 1)).filter
            (fun p => pageCount "keep_structure" ((fun _ => ([] : List JsonValue)) p) = 0))
    ∧ (migrate_bucket_mechoice "orders" "keep_structure" 2500 1000 c6read true 500 []).2
        = (2000, [2]) := by
  exact spec_c6 "b" "keep_structure" 0 1 (fun _ => []) true 500 [] (by omega)

end Soft
